import Mathlib

/-!
# Verification of the decision-module core (master.c)

Shallow embedding of the framed UART transport and the anchor-directed
hill-climbing controller of the decision node, together with proofs of the
specified properties.

Conventions of the embedding:
* C `int` values are modelled as `ℤ`; byte values (`uint8_t`) as `ℕ`.
* The incoming UART byte stream is a `List ℕ`: the bytes that will arrive
  within their per-byte timeout window.  An exhausted list models a timeout.
* Mutable globals become fields of explicit state records threaded through
  the functions.
* Wall-clock time (`now_msec`, the latched calm elapsed time) is outside the
  embedding; the boolean condition `g_algo_start_ms > 0.0` is modelled by the
  field `algoStarted`.
-/

namespace Decision

/-- Node address of the master (decision) module, `#define MSTR 0`. -/
def MSTR : ℕ := 0

/-- Node address of the heartbeat module, `#define HRTBT 1`. -/
def HRTBT : ℕ := 1

/-- Node address of the crying module, `#define CRY 2`. -/
def CRY : ℕ := 2

/-- Node address of the motor module, `#define MTR 3`. -/
def MTR : ℕ := 3

/-- Maximum payload length, `#define MAX_PAY 5`. -/
def MAX_PAY : ℕ := 5

/-- `send_message_raw(dst, src, payload, len)`: writes the header bytes
`[DST][SRC][LEN]` followed by the first `len` payload bytes onto the bus. -/
def send_message_raw (dst src : ℕ) (payload : List ℕ) (len : ℕ) : List ℕ :=
  dst :: src :: len :: payload.take len

/-- The receive-side globals `g_src`, `g_len`, `g_payload` (a 5-byte array). -/
structure RxState where
  g_src : ℕ
  g_len : ℕ
  g_payload : List ℕ
  deriving Repr, DecidableEq

/-- Writing the received bytes into the payload array from index 0 on,
keeping the remaining old array contents. -/
def overwrite (old bytes : List ℕ) : List ℕ :=
  bytes ++ old.drop bytes.length

/-- `receive_message()` of the source, generalized over the receiver's own
address `self` (the source compares against the constant `MSTR`).  Returns the
`int` result code, the updated receive globals and the unread remainder of the
stream.  `[]` models "no byte arrives in time", so a short list produces the
timeout paths of the source: `-1` while reading the header, `-3` while reading
the payload of an addressed frame. -/
def receive_message (self : ℕ) (rx : RxState) (stream : List ℕ) :
    Int × RxState × List ℕ :=
  match stream with
  | [] => (-1, rx, [])                       -- !uart_has_data
  | dst :: t1 =>
    match t1 with
    | [] => (-1, rx, [])                     -- timeout reading SRC
    | src :: t2 =>
      match t2 with
      | [] => (-1, rx, [])                   -- timeout reading LEN
      | len :: t3 =>
        if dst ≠ self then
          -- not for me: drain `len` bytes (best effort) to stay aligned
          (0, rx, t3.drop len)
        else
          let l := min len MAX_PAY
          if t3.length < l then
            -- timeout mid-payload of an addressed frame
            (-3, { rx with g_payload := overwrite rx.g_payload (t3.take l) },
              t3.drop l)
          else
            (Int.ofNat l,
             { g_src := src, g_len := l,
               g_payload := overwrite rx.g_payload (t3.take l) },
             t3.drop l)

/-- Sending a frame and receiving it at a node whose own address is the
frame's destination yields the source, the length and the payload intact,
consuming exactly the frame. -/
theorem receive_send_eq (dst src : ℕ) (payload : List ℕ) (rx : RxState)
    (h : payload.length ≤ 5) :
    receive_message dst rx (send_message_raw dst src payload payload.length) =
      (Int.ofNat payload.length,
       { g_src := src, g_len := payload.length,
         g_payload := overwrite rx.g_payload payload }, []) := by
  have htake : payload.take payload.length = payload := List.take_length payload
  simp only [send_message_raw, receive_message, htake]
  have hmin : min payload.length MAX_PAY = payload.length := by
    simp [MAX_PAY]; omega
  simp [hmin, htake]

/-- C7 — Frame round-trip: for every destination, source and payload of
length `L ≤ 5`, writing the frame with `send_message_raw` and parsing the
resulting byte stream with `receive_message` at a receiver whose own address
equals the destination yields the original source, length and payload bytes
(the addressed-to-self branch is the one taken, witnessed by `g_src`/`g_len`
being set and the result code being the payload length). -/
theorem frame_roundtrip (dst src : ℕ) (payload : List ℕ) (rx : RxState)
    (h : payload.length ≤ 5) :
    receive_message dst rx (send_message_raw dst src payload payload.length) =
      (Int.ofNat payload.length,
       { g_src := src, g_len := payload.length,
         g_payload := overwrite rx.g_payload payload }, []) ∧
    (overwrite rx.g_payload payload).take payload.length = payload := by
  refine ⟨receive_send_eq dst src payload rx h, ?_⟩
  simp [overwrite]

/-- Witness for C7 at a concrete frame. -/
theorem frame_roundtrip_witness :
    receive_message 3 ⟨0, 0, [0, 0, 0, 0, 0]⟩
        (send_message_raw 3 0 [77, 2, 1] 3) =
      (3, ⟨0, 3, [77, 2, 1, 0, 0]⟩, []) ∧
    (overwrite [0, 0, 0, 0, 0] [77, 2, 1]).take 3 = [77, 2, 1] := by
  exact frame_roundtrip 3 0 [77, 2, 1] ⟨0, 0, [0, 0, 0, 0, 0]⟩ (by decide)

/-- C8 — Framing alignment on misaddressed frames: the byte stream consisting
of the frame `[otherAddr][anyAddr][2][0xAA,0xBB]` (`otherAddr ≠ selfAddr`)
followed by a complete frame addressed to `selfAddr`: the first
`receive_message` call consumes the misaddressed frame entirely (header plus
exactly its 2 payload bytes), yields no payload (result 0, receive globals
untouched), and the next call returns the second frame's source, length and
payload intact. -/
theorem misaddressed_alignment (self other any src2 : ℕ) (pl2 : List ℕ)
    (rx : RxState) (hne : other ≠ self) (h2 : pl2.length ≤ 5) :
    receive_message self rx
        (other :: any :: 2 :: 170 :: 187 ::
          send_message_raw self src2 pl2 pl2.length) =
      (0, rx, send_message_raw self src2 pl2 pl2.length) ∧
    receive_message self rx (send_message_raw self src2 pl2 pl2.length) =
      (Int.ofNat pl2.length,
       { g_src := src2, g_len := pl2.length,
         g_payload := overwrite rx.g_payload pl2 }, []) := by
  constructor
  · simp [receive_message, hne]
  · exact receive_send_eq self src2 pl2 rx h2

/-- Witness for C8 at a concrete pair of frames. -/
theorem misaddressed_alignment_witness :
    receive_message 0 ⟨0, 0, [0, 0, 0, 0, 0]⟩
        (1 :: 2 :: 2 :: 170 :: 187 :: send_message_raw 0 3 [9] 1) =
      (0, ⟨0, 0, [0, 0, 0, 0, 0]⟩, send_message_raw 0 3 [9] 1) ∧
    receive_message 0 ⟨0, 0, [0, 0, 0, 0, 0]⟩ (send_message_raw 0 3 [9] 1) =
      (1, ⟨3, 1, [9, 0, 0, 0, 0]⟩, []) := by
  exact misaddressed_alignment 0 1 2 3 [9] ⟨0, 0, [0, 0, 0, 0, 0]⟩
    (by decide) (by decide)

/-- C9 — Addressed-frame receive errors: when the parsed destination equals
the receiver's own address, the declared length is clamped to 5 before the
payload is read (at most 5 payload bytes are consumed and returned even if
the length byte is larger), and a timeout while reading a payload byte of an
addressed frame yields `-3` ("malformed receive"), distinct from the `-1`
("no frame") of a timeout while reading a header byte. -/
theorem addressed_receive_errors (self src len : ℕ) (bytes : List ℕ)
    (rx : RxState) :
    (5 < len → 5 ≤ bytes.length →
      receive_message self rx (self :: src :: len :: bytes) =
        (5, { g_src := src, g_len := 5,
              g_payload := overwrite rx.g_payload (bytes.take 5) },
         bytes.drop 5)) ∧
    (bytes.length < min len 5 →
      (receive_message self rx (self :: src :: len :: bytes)).1 = -3) ∧
    (receive_message self rx [self]).1 = -1 ∧
    (receive_message self rx [self, src]).1 = -1 ∧
    (-3 : Int) ≠ -1 := by
  refine ⟨?_, ?_, by simp [receive_message], by simp [receive_message],
    by decide⟩
  · intro hlen hbytes
    have hmin : min len MAX_PAY = 5 := by simp [MAX_PAY]; omega
    simp [receive_message, hmin]
    omega
  · intro hshort
    have hmin : min len MAX_PAY = min len 5 := by simp [MAX_PAY]
    simp [receive_message, hmin, hshort]

/-- Witness for C9: a length byte of 200 is clamped to 5, a mid-payload
timeout of an addressed frame yields `-3`, a header timeout `-1`. -/
theorem addressed_receive_errors_witness :
    receive_message 0 ⟨0, 0, [0, 0, 0, 0, 0]⟩
        (0 :: 7 :: 200 :: [1, 2, 3, 4, 5, 6]) =
      (5, ⟨7, 5, [1, 2, 3, 4, 5]⟩, [6]) ∧
    (receive_message 0 ⟨0, 0, [0, 0, 0, 0, 0]⟩ (0 :: 7 :: 200 :: [1, 2])).1
      = -3 ∧
    (receive_message 0 ⟨0, 0, [0, 0, 0, 0, 0]⟩ [0]).1 = -1 := by
  have h1 := (addressed_receive_errors 0 7 200 [1, 2, 3, 4, 5, 6]
    ⟨0, 0, [0, 0, 0, 0, 0]⟩).1 (by decide) (by decide)
  have h2 := (addressed_receive_errors 0 7 200 [1, 2]
    ⟨0, 0, [0, 0, 0, 0, 0]⟩).2.1 (by decide)
  have h3 := (addressed_receive_errors 0 7 200 [1, 2]
    ⟨0, 0, [0, 0, 0, 0, 0]⟩).2.2.1
  exact ⟨by simpa [overwrite] using h1, h2, by simpa using h3⟩

/-! ## Controller state machine -/

/-- `#define thresholdBPM 10` (static int). -/
def thresholdBPM : ℤ := 10

/-- `static int thresholdCRY = 1`. -/
def thresholdCRY : ℤ := 1

/-- The controller globals of the source (`curA` … `g_calm_reached`).
`anchorMatrix` is the 5×5 anchor map, indexed by naturals (the source
bounds-checks before indexing); `algoStarted` models `g_algo_start_ms > 0.0`.
The HUD-only globals (`g_amp`, `g_freq`) and the latched elapsed wall time
`g_calm_elapsed_ms` are not modelled (display/wall-clock only). -/
structure CState where
  curA : ℤ
  curF : ℤ
  is_crying : Bool
  ctrl_lastBPM : ℤ
  ctrl_lastCRY : ℤ
  prevA : ℤ
  prevF : ℤ
  anchorA_mem : ℤ
  anchorF_mem : ℤ
  triedLeftFromAnchor : Bool
  triedUpFromAnchor : Bool
  lastMoveDir : ℤ
  hit_wall : Bool
  anchorMatrix : ℕ → ℕ → ℤ
  anchorLevel : ℤ
  panic_mode : Bool
  algoStarted : Bool
  g_calm_reached : Bool

/-- Result of one `controller_step` invocation: the updated state, the motor
commands issued via `controller_command_cell` (in order), and the anchor
registrations performed by `register_anchor` (cell and assigned rank, in
order). -/
structure StepOut where
  state : CState
  cmds : List (ℤ × ℤ)
  regs : List ((ℕ × ℕ) × ℤ)

/-- Prefix a command onto a step result. -/
def StepOut.consCmd (o : StepOut) (p : ℤ × ℤ) : StepOut :=
  ⟨o.state, p :: o.cmds, o.regs⟩

/-- `clampi` of the source. -/
def clampi (v lo hi : ℤ) : ℤ :=
  if v < lo then lo else if v > hi then hi else v

/-- `controller_command_cell(aIndex, fIndex)`: clamps both indices into
`[0,4]`, stores them as the current cell, commands the motor, and latches
calm-reached on the first non-panic command of cell `(0,0)`. -/
def controller_command_cell (s : CState) (aIndex fIndex : ℤ) :
    CState × (ℤ × ℤ) :=
  let a := clampi aIndex 0 4
  let f := clampi fIndex 0 4
  let s1 := { s with curA := a, curF := f }
  let s2 :=
    if s1.g_calm_reached = false ∧ s1.panic_mode = false ∧
        s1.algoStarted = true ∧ a = 0 ∧ f = 0 then
      { s1 with g_calm_reached := true }
    else s1
  (s2, (a, f))

/-- `heartbeat_improved(bpm_now)`, with the global `ctrl_lastBPM` passed
explicitly. -/
def heartbeat_improved (ctrl_lastBPM bpm_now : ℤ) : Bool :=
  if ctrl_lastBPM ≤ 0 then false
  else if ctrl_lastBPM - bpm_now ≥ thresholdBPM then true
  else false

/-- `crying_improved(cry_now)`, with the global `ctrl_lastCRY` passed
explicitly. -/
def crying_improved (ctrl_lastCRY cry_now : ℤ) : Bool :=
  if cry_now ≤ thresholdCRY then true
  else if ctrl_lastCRY > 0 ∧ ctrl_lastCRY - cry_now ≥ thresholdCRY then true
  else false

/-- `register_anchor(a, f)`: bounds-check, then register the cell with rank
`10 - anchorLevel` (after incrementing the level) if it is still unknown.
Also returns the registration event performed, if any. -/
def register_anchor (s : CState) (a f : ℤ) :
    CState × List ((ℕ × ℕ) × ℤ) :=
  if a < 0 ∨ a > 4 ∨ f < 0 ∨ f > 4 then (s, [])
  else
    let an := a.toNat
    let fn := f.toNat
    if s.anchorMatrix an fn = 0 then
      let lvl := s.anchorLevel + 1
      ({ s with anchorLevel := lvl,
                anchorMatrix := fun a' f' =>
                  if a' = an ∧ f' = fn then 10 - lvl
                  else s.anchorMatrix a' f' },
       [((an, fn), 10 - lvl)])
    else (s, [])

/-- The improvement flag of a `controller_step`: the crying regime is
selected iff `bpm_now < 150 && 15 < cry_now < 52`, and the corresponding
improvement helper is consulted (lines 572–581 of the source). -/
def improvedOf (s : CState) (bpm_now cry_now : ℤ) : Bool :=
  if bpm_now < 150 ∧ cry_now < 52 ∧ cry_now > 15 then
    crying_improved s.ctrl_lastCRY cry_now
  else heartbeat_improved s.ctrl_lastBPM bpm_now

/-- The stability flag `same` of a `controller_step` (lines 583–606): only
when a previous bpm is on record and the last move was Left; bpm-driven:
`|Δbpm| ≤ 3`; crying-driven: `Δcry == 0` (an unset previous cry counts as
zero change). -/
def sameOf (s : CState) (bpm_now cry_now : ℤ) : Bool :=
  decide (s.ctrl_lastBPM > 0 ∧ s.lastMoveDir = 1 ∧
    (if bpm_now < 150 ∧ cry_now < 52 ∧ cry_now > 15 then
      (if s.ctrl_lastCRY ≥ 0 then |cry_now - s.ctrl_lastCRY| else 0) = 0
     else |bpm_now - s.ctrl_lastBPM| ≤ 3))

/-- The pending-move part of `controller_step` (lines 691–782): evaluate the
outcome of the previous command — improvement, reverse-diagonal probe, or
backtrack.  Reached with `lastMoveDir ≠ 0`, or by fall-through from the two
idle wall branches (then with `lastMoveDir = 0`). -/
def stepPending (s : CState) (bpm_now cry_now : ℤ) (improved same : Bool) :
    StepOut :=
  if improved = true then
    let anchorA := s.curA
    let anchorF := s.curF
    let p0 := register_anchor s anchorA anchorF
    let s1 := p0.1
    let s2 :=
      if s1.anchorA_mem ≠ anchorA ∨ s1.anchorF_mem ≠ anchorF then
        { s1 with anchorA_mem := anchorA, anchorF_mem := anchorF,
                  triedLeftFromAnchor := false, triedUpFromAnchor := false }
      else s1
    let s3 := { s2 with prevA := anchorA, prevF := anchorF }
    if anchorF > 0 then
      let s4 := { s3 with lastMoveDir := 1, triedLeftFromAnchor := true }
      let p := controller_command_cell s4 anchorA (anchorF - 1)
      ⟨{ p.1 with ctrl_lastBPM := bpm_now, ctrl_lastCRY := cry_now },
       [p.2], p0.2⟩
    else if anchorA > 0 then
      let s4 := { s3 with lastMoveDir := 2 }
      let p := controller_command_cell s4 (anchorA - 1) anchorF
      ⟨{ p.1 with ctrl_lastBPM := bpm_now, ctrl_lastCRY := cry_now },
       [p.2], p0.2⟩
    else
      ⟨{ s3 with ctrl_lastBPM := bpm_now, ctrl_lastCRY := cry_now },
       [], p0.2⟩
  else
    if same = true ∧ s.lastMoveDir = 1 ∧ s.prevA > 0 then
      -- reverse-diagonal probe from the previous anchor
      let anchorA := s.prevA
      let anchorF := s.prevF
      let s1 := { s with
        lastMoveDir := 2
        triedUpFromAnchor := true
        prevA := s.curA
        prevF := s.curF }
      let p := controller_command_cell s1 (anchorA - 1) anchorF
      ⟨{ p.1 with ctrl_lastBPM := bpm_now, ctrl_lastCRY := cry_now },
       [p.2], []⟩
    else
      -- backtrack to the previous anchor
      let anchorA := s.prevA
      let anchorF := s.prevF
      let q : CState × List (ℤ × ℤ) :=
        if anchorA ≠ s.curA ∨ anchorF ≠ s.curF then
          let p := controller_command_cell s anchorA anchorF
          (p.1, [p.2])
        else (s, [])
      ⟨{ q.1 with
          curA := anchorA
          curF := anchorF
          lastMoveDir := 0
          ctrl_lastBPM := bpm_now
          ctrl_lastCRY := cry_now }, q.2, []⟩

/-- The first-move if-chain of the idle part of `controller_step`
(lines 629–689), applied to a state whose `prevA`/`prevF` were just set to
the current cell.  The two wall branches command a cell and fall through to
`stepPending` (the source's if-chain does not return there). -/
def stepIdleCore (sB : CState) (bpm_now cry_now : ℤ) (improved same : Bool) :
    StepOut :=
  if sB.triedLeftFromAnchor = false ∧ sB.curF = 0 then
    let sC := { sB with hit_wall := true }
    let p := controller_command_cell sC (sC.curA - 1) sC.curF
    stepPending p.1 bpm_now cry_now improved same |>.consCmd p.2
  else if sB.triedUpFromAnchor = false ∧ sB.curA = 0 then
    let sC := { sB with hit_wall := true }
    let p := controller_command_cell sC sC.curA (sC.curF - 1)
    stepPending p.1 bpm_now cry_now improved same |>.consCmd p.2
  else if sB.triedLeftFromAnchor = false ∧ sB.curF > 0 then
    let sC := { sB with lastMoveDir := 1, triedLeftFromAnchor := true }
    let p := controller_command_cell sC sC.curA (sC.curF - 1)
    ⟨{ p.1 with ctrl_lastBPM := bpm_now, ctrl_lastCRY := cry_now },
     [p.2], []⟩
  else if sB.triedUpFromAnchor = false ∧ sB.curA > 0 then
    let sC := { sB with lastMoveDir := 2, triedUpFromAnchor := true }
    let p := controller_command_cell sC (sC.curA - 1) sC.curF
    ⟨{ p.1 with ctrl_lastBPM := bpm_now, ctrl_lastCRY := cry_now },
     [p.2], []⟩
  else if sB.curA + 1 = 1 ∧ sB.curF + 1 = 1 then
    ⟨{ sB with ctrl_lastBPM := bpm_now, ctrl_lastCRY := cry_now }, [], []⟩
  else
    ⟨{ sB with ctrl_lastBPM := bpm_now, ctrl_lastCRY := cry_now }, [], []⟩

/-- The idle part of `controller_step` (lines 608–689): anchor sync, then
the first move from the anchor via `stepIdleCore`. -/
def stepIdle (s : CState) (bpm_now cry_now : ℤ) (improved same : Bool) :
    StepOut :=
  let p0 : CState × List ((ℕ × ℕ) × ℤ) :=
    if s.anchorA_mem ≠ s.curA ∨ s.anchorF_mem ≠ s.curF then
      let t := { s with
        anchorA_mem := s.curA
        anchorF_mem := s.curF
        triedLeftFromAnchor := false
        triedUpFromAnchor := false }
      register_anchor t t.anchorA_mem t.anchorF_mem
    else (s, [])
  let sA := p0.1
  let sB := { sA with prevA := sA.curA, prevF := sA.curF }
  let o := stepIdleCore sB bpm_now cry_now improved same
  ⟨o.state, o.cmds, p0.2 ++ o.regs⟩

/-- `controller_step(bpm_now, cry_now)`: one invocation of the controller on
the latest vitals. -/
def controller_step (s0 : CState) (bpm_now cry_now : ℤ) : StepOut :=
  let s1 := { s0 with hit_wall := false }
  let s2 :=
    if s1.panic_mode = false ∧ s1.ctrl_lastBPM > 0 ∧
        bpm_now - s1.ctrl_lastBPM ≥ 30 then
      { s1 with panic_mode := true }
    else s1
  if s2.panic_mode = true then
    let p := controller_command_cell s2 0 0
    ⟨{ p.1 with ctrl_lastBPM := bpm_now, ctrl_lastCRY := cry_now },
     [p.2], []⟩
  else
    let s3 := { s2 with
      is_crying := decide (bpm_now < 150 ∧ cry_now < 52 ∧ cry_now > 15) }
    -- `improvedOf`/`sameOf` read only the recorded last vitals and the move
    -- direction, which the panic check and the regime update never touch, so
    -- they may equivalently be computed from the incoming state `s0`.
    let improved := improvedOf s0 bpm_now cry_now
    let same := sameOf s0 bpm_now cry_now
    if s3.lastMoveDir = 0 then stepIdle s3 bpm_now cry_now improved same
    else stepPending s3 bpm_now cry_now improved same

/-- The controller state at the start of a run (mode-3 init, lines 1304–1311,
on top of the load-time global initializers). -/
def initState : CState where
  curA := 4
  curF := 4
  is_crying := false
  ctrl_lastBPM := -1
  ctrl_lastCRY := -1
  prevA := 4
  prevF := 4
  anchorA_mem := -1
  anchorF_mem := -1
  triedLeftFromAnchor := false
  triedUpFromAnchor := false
  lastMoveDir := 0
  hit_wall := false
  anchorMatrix := fun _ _ => 0
  anchorLevel := 0
  panic_mode := false
  algoStarted := true
  g_calm_reached := false

/-- A whole run: fold `controller_step` over a list of sampled vitals,
collecting all commands and registration events. -/
def controller_run (s : CState) :
    List (ℤ × ℤ) → CState × List (ℤ × ℤ) × List ((ℕ × ℕ) × ℤ)
  | [] => (s, [], [])
  | (b, c) :: rest =>
    let o := controller_step s b c
    let r := controller_run o.state rest
    (r.1, o.cmds ++ r.2.1, o.regs ++ r.2.2)

/-- The controller states reachable from the start of a run. -/
inductive Reachable : CState → Prop
  | init : Reachable initState
  | step (s : CState) (b c : ℤ) :
      Reachable s → Reachable (controller_step s b c).state

/-- A cell index pair lies on the 5×5 grid. -/
def InG (a f : ℤ) : Prop := 0 ≤ a ∧ a ≤ 4 ∧ 0 ≤ f ∧ f ≤ 4

instance (a f : ℤ) : Decidable (InG a f) := by unfold InG; infer_instance

/-- Cell `(a, f)` is registered in the anchor map `M` (nonzero entry). -/
def RegM (M : ℕ → ℕ → ℤ) (a f : ℕ) : Prop := a < 5 ∧ f < 5 ∧ M a f ≠ 0

instance (M : ℕ → ℕ → ℤ) (a f : ℕ) : Decidable (RegM M a f) := by
  unfold RegM; infer_instance

/-- The cell `(a, f)` lies weakly below every registered cell in
coordinate sum, and meets the minimum sum only if it is that registered
cell itself. -/
def MinAtM (M : ℕ → ℕ → ℤ) (a f : ℤ) : Prop :=
  ∀ a' f' : ℕ, RegM M a' f' →
    a + f ≤ (a' : ℤ) + (f' : ℤ) ∧
    (a + f = (a' : ℤ) + (f' : ℤ) → a = (a' : ℤ) ∧ f = (f' : ℤ))

/-- Potential bound: the anchor level plus the minimum registered
coordinate sum never exceeds 9 (so at most 9 registrations can happen and
every assigned rank is at least 1). -/
def PotM (M : ℕ → ℕ → ℤ) (lvl : ℤ) : Prop :=
  lvl = 0 ∨ ∃ a f : ℕ, RegM M a f ∧ lvl + (a : ℤ) + (f : ℤ) ≤ 9

/-- The inductive invariant of non-panic controller states. -/
def NInv (s : CState) : Prop :=
  s.panic_mode = false ∧ InG s.curA s.curF ∧ InG s.prevA s.prevF ∧
  MinAtM s.anchorMatrix s.curA s.curF ∧
  MinAtM s.anchorMatrix s.prevA s.prevF ∧
  PotM s.anchorMatrix s.anchorLevel

/-- The inductive invariant of reachable controller states. -/
def Inv (s : CState) : Prop :=
  (s.panic_mode = true ∧ InG s.curA s.curF ∧ InG s.prevA s.prevF) ∨ NInv s

/-- Relation between a pre-state, a post-state and the registration events
produced in between: level bookkeeping, monotonicity of the registered
set, every event cell registered afterwards, ranks following the
`9 - i` formula from the pre-level, every event strictly below all
previously registered cells in coordinate sum, and strictly decreasing
event sums. -/
def TraceOK (s t : CState) (l : List ((ℕ × ℕ) × ℤ)) : Prop :=
  t.anchorLevel = s.anchorLevel + l.length ∧
  (∀ a f, RegM s.anchorMatrix a f → RegM t.anchorMatrix a f) ∧
  (∀ e ∈ l, RegM t.anchorMatrix e.1.1 e.1.2) ∧
  l.map Prod.snd =
    (List.range l.length).map (fun i : ℕ => 9 - (s.anchorLevel + (i : ℤ))) ∧
  (∀ e ∈ l, ∀ a f, RegM s.anchorMatrix a f →
    (e.1.1 : ℤ) + (e.1.2 : ℤ) < (a : ℤ) + (f : ℤ)) ∧
  List.Pairwise
    (fun e1 e2 => (e2.1.1 : ℤ) + (e2.1.2 : ℤ) < (e1.1.1 : ℤ) + (e1.1.2 : ℤ)) l

/-- Everything a single step guarantees: the invariant of the post-state,
the trace relation for its registrations, and in-range commands. -/
def StepOK (s : CState) (o : StepOut) : Prop :=
  Inv o.state ∧ TraceOK s o.state o.regs ∧ ∀ p ∈ o.cmds, InG p.1 p.2

/-! ## Basic facts about the small helpers -/

theorem clampi_bounds (v : ℤ) : 0 ≤ clampi v 0 4 ∧ clampi v 0 4 ≤ 4 := by
  unfold clampi; split_ifs <;> omega

theorem clampi_of_range (v : ℤ) (h0 : 0 ≤ v) (h4 : v ≤ 4) :
    clampi v 0 4 = v := by
  unfold clampi; split_ifs <;> omega

/-- `controller_command_cell` clamps, commands the clamped pair, and touches
only `curA`, `curF` and the calm latch. -/
theorem controller_command_cell_spec (s : CState) (a f : ℤ) :
    (controller_command_cell s a f).2 = (clampi a 0 4, clampi f 0 4) ∧
    ∃ cl, (controller_command_cell s a f).1 =
      { s with curA := clampi a 0 4, curF := clampi f 0 4,
               g_calm_reached := cl } := by
  constructor
  · simp [controller_command_cell]
  · simp only [controller_command_cell]
    split_ifs with h
    · exact ⟨true, rfl⟩
    · exact ⟨s.g_calm_reached, rfl⟩

/-- `register_anchor` touches only the anchor matrix and the level. -/
theorem register_anchor_state (s : CState) (a f : ℤ) :
    ∃ M L, (register_anchor s a f).1 =
      { s with anchorMatrix := M, anchorLevel := L } := by
  simp only [register_anchor]
  split_ifs with h1 h2
  · exact ⟨s.anchorMatrix, s.anchorLevel, rfl⟩
  · exact ⟨_, _, rfl⟩
  · exact ⟨s.anchorMatrix, s.anchorLevel, rfl⟩

/-- `stepPending` never touches the wall flag, the regime flag or the panic
flag. -/
theorem stepPending_fields (s : CState) (b c : ℤ) (improved same : Bool) :
    (stepPending s b c improved same).state.hit_wall = s.hit_wall ∧
    (stepPending s b c improved same).state.is_crying = s.is_crying ∧
    (stepPending s b c improved same).state.panic_mode = s.panic_mode := by
  obtain ⟨M, L, hreg⟩ := register_anchor_state s s.curA s.curF
  unfold stepPending
  split_ifs <;>
    simp_all [controller_command_cell, hreg] <;>
    split_ifs <;> simp_all

/-- `stepIdleCore` never touches the regime flag or the panic flag. -/
theorem stepIdleCore_fields (sB : CState) (b c : ℤ) (improved same : Bool) :
    (stepIdleCore sB b c improved same).state.is_crying = sB.is_crying ∧
    (stepIdleCore sB b c improved same).state.panic_mode = sB.panic_mode := by
  unfold stepIdleCore StepOut.consCmd
  split_ifs <;>
    simp_all [controller_command_cell, stepPending_fields] <;>
    split_ifs <;> simp_all [stepPending_fields]

/-- `stepIdle` never touches the regime flag or the panic flag. -/
theorem stepIdle_fields (s : CState) (b c : ℤ) (improved same : Bool) :
    (stepIdle s b c improved same).state.is_crying = s.is_crying ∧
    (stepIdle s b c improved same).state.panic_mode = s.panic_mode := by
  obtain ⟨M, L, hreg⟩ := register_anchor_state
    { s with
      anchorA_mem := s.curA
      anchorF_mem := s.curF
      triedLeftFromAnchor := false
      triedUpFromAnchor := false } s.curA s.curF
  simp only [stepIdle]
  split_ifs with hmem <;> simp [hreg, stepIdleCore_fields]

/-- A cell with strictly smaller coordinate sum than a minimal cell is
itself minimal (and cannot meet any registered sum). -/
theorem MinAtM_of_lt (M : ℕ → ℕ → ℤ) (a f x y : ℤ)
    (h : x + y < a + f) (hm : MinAtM M a f) : MinAtM M x y := by
  intro a' f' hr
  obtain ⟨hle, _⟩ := hm a' f' hr
  exact ⟨by omega, fun he => absurd he (by omega)⟩

/-- Full specification of `register_anchor` under the invariant: the cell
ends up registered, stays minimal, the potential is preserved, and the
produced events satisfy the trace relation. -/
theorem register_anchor_spec (s : CState) (a f : ℤ)
    (hG : InG a f)
    (hmin : MinAtM s.anchorMatrix a f)
    (hpot : PotM s.anchorMatrix s.anchorLevel) :
    RegM (register_anchor s a f).1.anchorMatrix a.toNat f.toNat ∧
    MinAtM (register_anchor s a f).1.anchorMatrix a f ∧
    PotM (register_anchor s a f).1.anchorMatrix
      (register_anchor s a f).1.anchorLevel ∧
    TraceOK s (register_anchor s a f).1 (register_anchor s a f).2 ∧
    (∃ M L, (register_anchor s a f).1 =
      { s with anchorMatrix := M, anchorLevel := L }) := by
  obtain ⟨h0a, h4a, h0f, h4f⟩ := hG
  have hat : (a.toNat : ℤ) = a := Int.toNat_of_nonneg h0a
  have hft : (f.toNat : ℤ) = f := Int.toNat_of_nonneg h0f
  have hlt5a : a.toNat < 5 := by omega
  have hlt5f : f.toNat < 5 := by omega
  have hnb : ¬(a < 0 ∨ a > 4 ∨ f < 0 ∨ f > 4) := by omega
  simp only [register_anchor, if_neg hnb]
  by_cases hM : s.anchorMatrix a.toNat f.toNat = 0
  · -- a fresh registration
    have hstrict : ∀ a' f' : ℕ, RegM s.anchorMatrix a' f' →
        a + f < (a' : ℤ) + (f' : ℤ) := by
      intro a' f' hreg
      obtain ⟨hle, heq⟩ := hmin a' f' hreg
      rcases lt_or_eq_of_le hle with hlt | he
      · exact hlt
      · obtain ⟨he1, he2⟩ := heq he
        have ea : a.toNat = a' := by omega
        have ef : f.toNat = f' := by omega
        rw [ea, ef] at hM
        exact absurd hM hreg.2.2
    have hL9 : s.anchorLevel ≠ 9 := by
      intro h9
      rcases hpot with h0 | ⟨a', f', hreg, hle⟩
      · omega
      · have := hstrict a' f' hreg
        omega
    rw [if_pos hM]
    dsimp only
    have hMn : ∀ a' f' : ℕ,
        RegM (fun a'' f'' =>
          if a'' = a.toNat ∧ f'' = f.toNat then 10 - (s.anchorLevel + 1)
          else s.anchorMatrix a'' f'') a' f' ↔
        ((a' = a.toNat ∧ f' = f.toNat) ∨ RegM s.anchorMatrix a' f') := by
      intro a' f'
      by_cases hc : a' = a.toNat ∧ f' = f.toNat
      · simp only [RegM, if_pos hc]
        constructor
        · intro _; exact Or.inl hc
        · intro _; exact ⟨by omega, by omega, by omega⟩
      · simp only [RegM, if_neg hc]
        constructor
        · intro hx; exact Or.inr hx
        · rintro (hx | hx)
          · exact absurd hx hc
          · exact hx
    refine ⟨?_, ?_, ?_, ⟨?_, ?_, ?_, ?_, ?_, ?_⟩, ?_⟩
    · exact ⟨hlt5a, hlt5f, by simp; omega⟩
    · intro a' f' hr
      rcases (hMn a' f').mp hr with ⟨e1, e2⟩ | hold
      · subst e1; subst e2
        exact ⟨by omega, fun _ => ⟨by omega, by omega⟩⟩
      · have := hstrict a' f' hold
        exact ⟨by omega, fun he => absurd he (by omega)⟩
    · refine Or.inr ⟨a.toNat, f.toNat, ⟨hlt5a, hlt5f, by simp; omega⟩, ?_⟩
      rcases hpot with h0 | ⟨a', f', hreg, hle⟩
      · omega
      · have := hstrict a' f' hreg
        omega
    · simp
    · intro a' f' h
      exact (hMn a' f').mpr (Or.inr h)
    · intro e he
      simp only [List.mem_singleton] at he
      subst he
      exact (hMn a.toNat f.toNat).mpr (Or.inl ⟨rfl, rfl⟩)
    · simp [List.range_succ]
      ring
    · intro e he a' f' hreg
      simp only [List.mem_singleton] at he
      subst he
      simpa [hat, hft] using hstrict a' f' hreg
    · simp
    · exact ⟨_, _, rfl⟩
  · -- the cell was already registered: no event, no state change
    rw [if_neg hM]
    refine ⟨⟨hlt5a, hlt5f, hM⟩, hmin, hpot,
      ⟨by simp, fun a' f' h => h, by simp, by simp, by simp,
        List.Pairwise.nil⟩, ⟨s.anchorMatrix, s.anchorLevel, rfl⟩⟩

/-- `TraceOK` with no events, between states sharing map and level. -/
theorem TraceOK_nil (s t : CState)
    (hM : t.anchorMatrix = s.anchorMatrix)
    (hL : t.anchorLevel = s.anchorLevel) : TraceOK s t [] := by
  refine ⟨by simp [hL], ?_, by simp, by simp, by simp, List.Pairwise.nil⟩
  intro a f h; rwa [hM]

/-- `TraceOK` composes along consecutive state transitions. -/
theorem TraceOK_trans (s t u : CState) (l1 l2 : List ((ℕ × ℕ) × ℤ))
    (h1 : TraceOK s t l1) (h2 : TraceOK t u l2) :
    TraceOK s u (l1 ++ l2) := by
  obtain ⟨e1, m1, r1, k1, s1, p1⟩ := h1
  obtain ⟨e2, m2, r2, k2, s2c, p2⟩ := h2
  refine ⟨?_, ?_, ?_, ?_, ?_, ?_⟩
  · rw [e2, e1, List.length_append]; push_cast; ring
  · intro a f h; exact m2 _ _ (m1 _ _ h)
  · intro e he
    rcases List.mem_append.mp he with h | h
    · exact m2 _ _ (r1 e h)
    · exact r2 e h
  · rw [List.map_append, k1, k2, e1, List.length_append, List.range_add,
      List.map_append, List.map_map]
    congr 1
    apply List.map_congr_left
    intro i _
    simp only [Function.comp_apply]
    push_cast
    ring
  · intro e he a f hreg
    rcases List.mem_append.mp he with h | h
    · exact s1 e h a f hreg
    · exact s2c e h a f (m1 a f hreg)
  · rw [List.pairwise_append]
    refine ⟨p1, p2, ?_⟩
    intro x hx y hy
    exact s2c y hy x.1.1 x.1.2 (r1 x hx)

/-- `TraceOK` only depends on the anchor map and level of the post-state. -/
theorem TraceOK_congr (s t t' : CState) (l : List ((ℕ × ℕ) × ℤ))
    (hM : t'.anchorMatrix = t.anchorMatrix)
    (hL : t'.anchorLevel = t.anchorLevel)
    (h : TraceOK s t l) : TraceOK s t' l := by
  obtain ⟨e, m, r, k, st, p⟩ := h
  exact ⟨by rw [hL, e], fun a f hx => by rw [hM]; exact m a f hx,
    fun e he => by rw [hM]; exact r e he, k, st, p⟩

/-- A step taken in panic mode: the full effect on the state, the single
`(0,0)` command, and no registrations. -/
theorem step_panic_eq (s : CState) (b c : ℤ) (h : s.panic_mode = true) :
    controller_step s b c =
      ⟨{ s with
          hit_wall := false
          curA := 0
          curF := 0
          ctrl_lastBPM := b
          ctrl_lastCRY := c }, [(0, 0)], []⟩ := by
  simp [controller_step, controller_command_cell, clampi, h]

/-- A step that enters panic mode: the full effect. -/
theorem step_panic_entry_eq (s : CState) (b c : ℤ)
    (hp : s.panic_mode = false)
    (hj : 0 < s.ctrl_lastBPM ∧ 30 ≤ b - s.ctrl_lastBPM) :
    controller_step s b c =
      ⟨{ s with
          panic_mode := true
          hit_wall := false
          curA := 0
          curF := 0
          ctrl_lastBPM := b
          ctrl_lastCRY := c }, [(0, 0)], []⟩ := by
  simp [controller_step, controller_command_cell, clampi, hp, hj.1, hj.2]

/-! ## C1 — sticky panic -/

/-- C1 — Sticky panic: if panic mode is off, a previous bpm is on record
(`ctrl_lastBPM > 0`) and `bpm_now - ctrl_lastBPM ≥ 30`, `controller_step`
enters panic mode; and once panic mode is set, every `controller_step`
invocation, for every input, commands exactly cell `(0,0)`, still records
the input bpm and cry as the last observed values, and performs no other
state change (in particular the panic flag is never cleared; the transient
`hit_wall` flag is re-cleared at the top of every step, as it is for every
invocation). -/
theorem panic_sticky (s : CState) (b c : ℤ) :
    (s.panic_mode = false → s.ctrl_lastBPM > 0 → b - s.ctrl_lastBPM ≥ 30 →
      (controller_step s b c).state.panic_mode = true) ∧
    (s.panic_mode = true →
      controller_step s b c =
        ⟨{ s with
            hit_wall := false
            curA := 0
            curF := 0
            ctrl_lastBPM := b
            ctrl_lastCRY := c }, [(0, 0)], []⟩) := by
  constructor
  · intro hp hlast hjump
    simp [controller_step, controller_command_cell, clampi, hp, hlast, hjump]
  · exact step_panic_eq s b c

/-- Witness for C1: a concrete panic-mode state, and a concrete panic
entry. -/
theorem panic_sticky_witness :
    (controller_step { initState with panic_mode := true } 77 88 =
      ⟨{ initState with
          panic_mode := true
          hit_wall := false
          curA := 0
          curF := 0
          ctrl_lastBPM := 77
          ctrl_lastCRY := 88 }, [(0, 0)], []⟩) ∧
    (controller_step { initState with ctrl_lastBPM := 100 } 140
        50).state.panic_mode = true := by
  constructor
  · exact (panic_sticky { initState with panic_mode := true } 77 88).2 rfl
  · exact (panic_sticky { initState with ctrl_lastBPM := 100 } 140 50).1
      rfl (by decide) (by decide)

/-! ## C10 — panic permanently blocks the calm latch -/

/-- C10 — Implicit: the calm-reached flag is only ever set by
`controller_command_cell` when panic mode is off; since panic mode is never
cleared by `controller_step`, a run that is in panic mode before calm has
been latched never latches calm afterwards, even though every subsequent
command of the run is exactly cell `(0,0)`. -/
theorem panic_blocks_calm (s : CState) (inputs : List (ℤ × ℤ))
    (h1 : s.panic_mode = true) (h2 : s.g_calm_reached = false) :
    (controller_run s inputs).1.panic_mode = true ∧
    (controller_run s inputs).1.g_calm_reached = false ∧
    (controller_run s inputs).2.1 =
      List.replicate inputs.length ((0 : ℤ), (0 : ℤ)) := by
  induction inputs generalizing s with
  | nil => simpa [controller_run] using ⟨h1, h2⟩
  | cons bc rest ih =>
    obtain ⟨b, c⟩ := bc
    have hstep := step_panic_eq s b c h1
    have ihx := ih { s with
      hit_wall := false
      curA := 0
      curF := 0
      ctrl_lastBPM := b
      ctrl_lastCRY := c } h1 h2
    simp [controller_run, hstep, List.replicate_succ, ihx.1, ihx.2.1,
      ihx.2.2]

/-- Witness for C10: from a concrete panic state, a three-step run keeps
calm unlatched and commands `(0,0)` throughout. -/
theorem panic_blocks_calm_witness :
    (controller_run { initState with panic_mode := true }
        [(60, 0), (200, 100), (90, 30)]).1.panic_mode = true ∧
    (controller_run { initState with panic_mode := true }
        [(60, 0), (200, 100), (90, 30)]).1.g_calm_reached = false ∧
    (controller_run { initState with panic_mode := true }
        [(60, 0), (200, 100), (90, 30)]).2.1 =
      List.replicate 3 ((0 : ℤ), (0 : ℤ)) :=
  panic_blocks_calm { initState with panic_mode := true }
    [(60, 0), (200, 100), (90, 30)] rfl rfl

/-! ## C3 — idle boundary behaviour -/

/-- C3 counterexample: in the Idle state at cell `(2,0)` with Left untried
(and the anchor already synced by the registration of `(2,0)`), the claim
says the left-wall branch marks `hit_wall` and issues no motor command
itself, falling through to evaluate the Up option.  The code instead
commands `(curA-1, curF) = (1,0)` inside the branch, falls through to the
pending-move logic (not the Up branch: no move direction is committed and
`triedUpFromAnchor` stays false), and the backtrack then commands `(2,0)`:
the step emits the commands `[(1,0), (2,0)]`, not `[]`. -/
theorem idle_wall_counterexample :
    (controller_step { initState with curA := 2, curF := 0 }
        100 100).state.hit_wall = true ∧
    (controller_step { initState with curA := 2, curF := 0 }
        100 100).cmds = [(1, 0), (2, 0)] ∧
    (controller_step { initState with curA := 2, curF := 0 }
        100 100).state.lastMoveDir = 0 ∧
    (controller_step { initState with curA := 2, curF := 0 }
        100 100).state.triedUpFromAnchor = false := by
  refine ⟨?_, ?_, ?_, ?_⟩ <;> decide

/-- C3 amended: when the machine is Idle, the anchor is synced, Left is
untried and `freqIndex = 0`, the step marks the hit-boundary flag **and
itself commands the cell `(curA − 1, curF)` (clamped)** before falling
through to the pending-move evaluation (the Up branch of the idle chain is
not evaluated); symmetrically, when that branch is not taken, Up is untried
and `ampIndex = 0`, it marks hit-boundary and commands `(curA, curF − 1)`
(clamped) before falling through to the terminal pending-move checks. -/
theorem idle_wall_commands (s : CState) (b c : ℤ)
    (hp : s.panic_mode = false)
    (hnj : ¬(s.ctrl_lastBPM > 0 ∧ b - s.ctrl_lastBPM ≥ 30))
    (hdir : s.lastMoveDir = 0)
    (hmemA : s.anchorA_mem = s.curA) (hmemF : s.anchorF_mem = s.curF) :
    ((s.triedLeftFromAnchor = false ∧ s.curF = 0) →
      (controller_step s b c).state.hit_wall = true ∧
      (controller_step s b c).cmds.head? =
        some (clampi (s.curA - 1) 0 4, clampi s.curF 0 4)) ∧
    (¬(s.triedLeftFromAnchor = false ∧ s.curF = 0) →
      s.triedUpFromAnchor = false → s.curA = 0 →
      (controller_step s b c).state.hit_wall = true ∧
      (controller_step s b c).cmds.head? =
        some (clampi s.curA 0 4, clampi (s.curF - 1) 0 4)) := by
  have hcond : ¬(0 < s.ctrl_lastBPM ∧ 30 ≤ b - s.ctrl_lastBPM) := by
    intro hx; exact hnj ⟨hx.1, hx.2⟩
  constructor
  · intro hwall
    simp only [controller_step, stepIdle, stepIdleCore, StepOut.consCmd]
    simp [hcond, hp, hdir, hmemA, hmemF, hwall.1, hwall.2,
      stepPending_fields, controller_command_cell, clampi]
    split_ifs <;> rfl
  · intro hnot hup hA
    simp only [controller_step, stepIdle, stepIdleCore, StepOut.consCmd]
    simp [hcond, hp, hdir, hmemA, hmemF, hnot, hup, hA,
      stepPending_fields, controller_command_cell, clampi]
    split_ifs <;> rfl

/-- Witness for the amended C3: both wall branches at concrete states. -/
theorem idle_wall_commands_witness :
    ((controller_step
        { initState with curA := 2, curF := 0, anchorA_mem := 2, anchorF_mem := 0 }
        200 100).state.hit_wall = true ∧
      (controller_step
        { initState with curA := 2, curF := 0, anchorA_mem := 2, anchorF_mem := 0 }
        200 100).cmds.head? = some (1, 0)) ∧
    ((controller_step
        { initState with curA := 0, curF := 3, anchorA_mem := 0, anchorF_mem := 3, triedLeftFromAnchor := true }
        200 100).state.hit_wall = true ∧
      (controller_step
        { initState with curA := 0, curF := 3, anchorA_mem := 0, anchorF_mem := 3, triedLeftFromAnchor := true }
        200 100).cmds.head? = some (0, 2)) := by
  constructor
  · have h := (idle_wall_commands
      { initState with curA := 2, curF := 0, anchorA_mem := 2, anchorF_mem := 0 }
      200 100 rfl (by decide) rfl rfl rfl).1 ⟨rfl, rfl⟩
    simpa [clampi] using h
  · have h := (idle_wall_commands
      { initState with curA := 0, curF := 3, anchorA_mem := 0, anchorF_mem := 3, triedLeftFromAnchor := true }
      200 100 rfl (by decide) rfl rfl rfl).2 (by decide) rfl rfl
    simpa [clampi] using h

/-! ## C5 — regime selection and improvement predicates -/

/-- C5 — Regime selection and improvement predicate: in a non-panic step the
crying regime is selected iff `bpm_now < 150 ∧ 15 < cry_now < 52` (recorded
in `is_crying`), and the step's improvement flag equals the selected
regime's predicate: heartbeat-driven improved iff a prior bpm is known
(`> 0`) and `priorBpm - bpm_now ≥ 10`; crying-driven improved iff
`cry_now ≤ 1`, or a prior cry is known (`> 0`) and `priorCry - cry_now ≥ 1`. -/
theorem regime_and_improvement (s : CState) (b c : ℤ)
    (hp : s.panic_mode = false)
    (hnj : ¬(s.ctrl_lastBPM > 0 ∧ b - s.ctrl_lastBPM ≥ 30)) :
    (controller_step s b c).state.is_crying =
      decide (b < 150 ∧ 15 < c ∧ c < 52) ∧
    improvedOf s b c =
      (if b < 150 ∧ 15 < c ∧ c < 52 then
        decide (c ≤ 1 ∨ (s.ctrl_lastCRY > 0 ∧ s.ctrl_lastCRY - c ≥ 1))
       else decide (s.ctrl_lastBPM > 0 ∧ s.ctrl_lastBPM - b ≥ 10)) := by
  have hcond : ¬(0 < s.ctrl_lastBPM ∧ 30 ≤ b - s.ctrl_lastBPM) := by
    intro hx; exact hnj ⟨hx.1, hx.2⟩
  constructor
  · have hx : (b < 150 ∧ c < 52 ∧ c > 15) ↔ (b < 150 ∧ 15 < c ∧ c < 52) := by
      constructor <;> (intro h; exact ⟨h.1, h.2.2, h.2.1⟩)
    simp only [controller_step]
    simp [hcond, hp, stepIdle_fields, stepPending_fields]
    split_ifs <;>
      simp_all [stepIdle_fields, stepPending_fields, decide_eq_decide] <;>
      rw [Bool.and_comm (decide (c < 52)) (decide (15 < c))]
  · unfold improvedOf crying_improved heartbeat_improved
    split_ifs with h1 h2 h3 h4 h5 h6 h7 <;>
      simp_all [thresholdBPM, thresholdCRY, decide_eq_true_eq]

/-- Witness for C5: a concrete crying-regime step and predicate values. -/
theorem regime_and_improvement_witness :
    (controller_step
      { initState with ctrl_lastBPM := 120, ctrl_lastCRY := 40 }
      119 30).state.is_crying = true ∧
    improvedOf { initState with ctrl_lastBPM := 120, ctrl_lastCRY := 40 }
      119 30 = true := by
  have h := regime_and_improvement
    { initState with ctrl_lastBPM := 120, ctrl_lastCRY := 40 } 119 30
    rfl (by decide)
  exact ⟨by rw [h.1]; decide, by rw [h.2]; decide⟩

/-- `improvedOf` depends only on the recorded last vitals. -/
theorem improvedOf_congr (s t : CState) (b c : ℤ)
    (hB : t.ctrl_lastBPM = s.ctrl_lastBPM)
    (hC : t.ctrl_lastCRY = s.ctrl_lastCRY) :
    improvedOf t b c = improvedOf s b c := by
  unfold improvedOf crying_improved heartbeat_improved
  rw [hB, hC]

/-- `sameOf` depends only on the recorded last vitals and the move
direction. -/
theorem sameOf_congr (s t : CState) (b c : ℤ)
    (hB : t.ctrl_lastBPM = s.ctrl_lastBPM)
    (hC : t.ctrl_lastCRY = s.ctrl_lastCRY)
    (hD : t.lastMoveDir = s.lastMoveDir) :
    sameOf t b c = sameOf s b c := by
  unfold sameOf
  rw [hB, hC, hD]

/-- A non-panic step with no pending move dispatches to `stepIdle`. -/
theorem controller_step_idle_eq (s : CState) (b c : ℤ)
    (hp : s.panic_mode = false)
    (hcond : ¬(0 < s.ctrl_lastBPM ∧ 30 ≤ b - s.ctrl_lastBPM))
    (hdir : s.lastMoveDir = 0) :
    controller_step s b c =
      stepIdle
        { s with
          hit_wall := false
          is_crying := decide (b < 150 ∧ c < 52 ∧ c > 15) }
        b c (improvedOf s b c) (sameOf s b c) := by
  simp only [controller_step]
  simp [hp, hcond, hdir]

/-- A non-panic step with a pending move dispatches to `stepPending`. -/
theorem controller_step_pending_eq (s : CState) (b c : ℤ)
    (hp : s.panic_mode = false)
    (hcond : ¬(0 < s.ctrl_lastBPM ∧ 30 ≤ b - s.ctrl_lastBPM))
    (hdir : s.lastMoveDir ≠ 0) :
    controller_step s b c =
      stepPending
        { s with
          hit_wall := false
          is_crying := decide (b < 150 ∧ c < 52 ∧ c > 15) }
        b c (improvedOf s b c) (sameOf s b c) := by
  simp only [controller_step]
  simp [hp, hcond, hdir]

/-- The backtrack path of `stepPending`: no improvement, no reverse-diagonal
case. -/
theorem stepPending_backtrack (s : CState) (b c : ℤ) (same : Bool)
    (hrd : ¬(same = true ∧ s.lastMoveDir = 1 ∧ s.prevA > 0))
    (hprev : InG s.prevA s.prevF) :
    (stepPending s b c false same).state.curA = s.prevA ∧
    (stepPending s b c false same).state.curF = s.prevF ∧
    (stepPending s b c false same).state.lastMoveDir = 0 ∧
    (stepPending s b c false same).state.ctrl_lastBPM = b ∧
    (stepPending s b c false same).state.ctrl_lastCRY = c ∧
    (stepPending s b c false same).cmds =
      (if s.prevA = s.curA ∧ s.prevF = s.curF then []
       else [(s.prevA, s.prevF)]) := by
  obtain ⟨h0A, h4A, h0F, h4F⟩ := hprev
  have hclA : clampi s.prevA 0 4 = s.prevA := clampi_of_range _ h0A h4A
  have hclF : clampi s.prevF 0 4 = s.prevF := clampi_of_range _ h0F h4F
  obtain ⟨hc2, cl, hc1⟩ := controller_command_cell_spec s s.prevA s.prevF
  simp only [stepPending]
  rw [if_neg (by simp), if_neg hrd]
  by_cases h : s.prevA ≠ s.curA ∨ s.prevF ≠ s.curF
  · rw [if_pos h]
    have hne : ¬(s.prevA = s.curA ∧ s.prevF = s.curF) := by tauto
    rw [if_neg hne]
    refine ⟨rfl, rfl, rfl, rfl, rfl, ?_⟩
    simp [hc2, hclA, hclF]
  · rw [if_neg h]
    push_neg at h
    rw [if_pos ⟨h.1, h.2⟩]
    exact ⟨rfl, rfl, rfl, rfl, rfl, rfl⟩

/-! ## C6 — backtrack on no improvement -/

/-- C6 — No-improvement backtrack: in a non-panic step with a move pending
(`lastMoveDir ≠ 0`), when neither the improvement flag nor the
reverse-diagonal special case (`same` with a Left move and a backtrack
anchor above the top row) applies, the step commands the stored
backtrack-target cell `(prevA, prevF)` when not already there, sets the
current cell to it, sets the move direction to Idle and records the input
bpm/cry. -/
theorem backtrack_on_no_improvement (s : CState) (b c : ℤ)
    (hp : s.panic_mode = false)
    (hnj : ¬(s.ctrl_lastBPM > 0 ∧ b - s.ctrl_lastBPM ≥ 30))
    (hdir : s.lastMoveDir ≠ 0)
    (himp : improvedOf s b c = false)
    (hrd : ¬(sameOf s b c = true ∧ s.lastMoveDir = 1 ∧ s.prevA > 0))
    (hprev : InG s.prevA s.prevF) :
    (controller_step s b c).state.curA = s.prevA ∧
    (controller_step s b c).state.curF = s.prevF ∧
    (controller_step s b c).state.lastMoveDir = 0 ∧
    (controller_step s b c).state.ctrl_lastBPM = b ∧
    (controller_step s b c).state.ctrl_lastCRY = c ∧
    (controller_step s b c).cmds =
      (if s.prevA = s.curA ∧ s.prevF = s.curF then []
       else [(s.prevA, s.prevF)]) := by
  have hcond : ¬(0 < s.ctrl_lastBPM ∧ 30 ≤ b - s.ctrl_lastBPM) := by
    intro hx; exact hnj ⟨hx.1, hx.2⟩
  rw [controller_step_pending_eq s b c hp hcond hdir, himp]
  exact stepPending_backtrack _ b c (sameOf s b c) hrd hprev

/-- Witness for C6: the spec's scenario — state MovedLeft, backtrack target
`(3,3)`, current cell `(3,2)`, bpm moves from 100 to 105 (outside the
stability window, no improvement): the step commands `(3,3)` and goes
Idle. -/
theorem backtrack_on_no_improvement_witness :
    (controller_step
      { initState with lastMoveDir := 1, prevA := 3, prevF := 3, curA := 3, curF := 2, ctrl_lastBPM := 100, ctrl_lastCRY := 100 }
      105 100).state.curA = 3 ∧
    (controller_step
      { initState with lastMoveDir := 1, prevA := 3, prevF := 3, curA := 3, curF := 2, ctrl_lastBPM := 100, ctrl_lastCRY := 100 }
      105 100).state.curF = 3 ∧
    (controller_step
      { initState with lastMoveDir := 1, prevA := 3, prevF := 3, curA := 3, curF := 2, ctrl_lastBPM := 100, ctrl_lastCRY := 100 }
      105 100).state.lastMoveDir = 0 ∧
    (controller_step
      { initState with lastMoveDir := 1, prevA := 3, prevF := 3, curA := 3, curF := 2, ctrl_lastBPM := 100, ctrl_lastCRY := 100 }
      105 100).cmds = [(3, 3)] := by
  have h := backtrack_on_no_improvement
    { initState with lastMoveDir := 1, prevA := 3, prevF := 3, curA := 3, curF := 2, ctrl_lastBPM := 100, ctrl_lastCRY := 100 }
    105 100 rfl (by decide) (by decide) (by decide) (by decide) (by decide)
  refine ⟨h.1, h.2.1, h.2.2.1, ?_⟩
  rw [h.2.2.2.2.2]; decide

/-! ## The inductive invariant: one step preserves it -/

/-- `TraceOK` only depends on the anchor map and level of the pre-state. -/
theorem TraceOK_congr_pre (s s' t : CState) (l : List ((ℕ × ℕ) × ℤ))
    (hM : s'.anchorMatrix = s.anchorMatrix)
    (hL : s'.anchorLevel = s.anchorLevel)
    (h : TraceOK s' t l) : TraceOK s t l := by
  obtain ⟨e, m, r, k, st, p⟩ := h
  refine ⟨by rw [e, hL], ?_, r, by rw [k, hL], ?_, p⟩
  · intro a f hx; exact m a f (by rwa [hM])
  · intro e he a f hx; exact st e he a f (by rwa [hM])

/-- Assembling a wrapper step from an inner step and a prefix trace. -/
theorem wrap_ok (s sB : CState) (o : StepOut) (l : List ((ℕ × ℕ) × ℤ))
    (hok : StepOK sB o) (htr : TraceOK s sB l) :
    StepOK s ⟨o.state, o.cmds, l ++ o.regs⟩ := by
  obtain ⟨hi, ht, hc⟩ := hok
  exact ⟨hi, TraceOK_trans s sB o.state l o.regs htr ht, hc⟩

/-- Prefixing an in-range command onto an inner step. -/
theorem consCmd_ok (s sD : CState) (o : StepOut) (pcmd : ℤ × ℤ)
    (hcmd : InG pcmd.1 pcmd.2) (hok : StepOK sD o)
    (hM : sD.anchorMatrix = s.anchorMatrix)
    (hL : sD.anchorLevel = s.anchorLevel) :
    StepOK s (o.consCmd pcmd) := by
  obtain ⟨hi, ht, hc⟩ := hok
  refine ⟨hi, TraceOK_congr_pre s sD o.state o.regs hM hL ht, ?_⟩
  intro p hp
  rcases List.mem_cons.mp hp with hx | hx
  · subst hx; exact hcmd
  · exact hc p hx

/-- A "command and record vitals" finish: the target cell is clamped into
range and minimal, the backtrack target is intact, so the invariant
survives. -/
theorem command_finish_ok (s u : CState) (b c a f : ℤ)
    (l : List ((ℕ × ℕ) × ℤ))
    (hup : u.panic_mode = false)
    (hprevG : InG u.prevA u.prevF)
    (hprevM : MinAtM u.anchorMatrix u.prevA u.prevF)
    (hupot : PotM u.anchorMatrix u.anchorLevel)
    (hcurM : MinAtM u.anchorMatrix (clampi a 0 4) (clampi f 0 4))
    (htr : TraceOK s u l) :
    StepOK s ⟨{ (controller_command_cell u a f).1 with
                ctrl_lastBPM := b
                ctrl_lastCRY := c },
              [(controller_command_cell u a f).2], l⟩ := by
  rcases controller_command_cell_spec u a f with ⟨hc2, cl, hc1⟩
  rw [hc1, hc2]
  refine ⟨Or.inr ⟨hup, ?_, hprevG, hcurM, hprevM, hupot⟩,
    TraceOK_congr s u _ l rfl rfl htr, ?_⟩
  · exact ⟨(clampi_bounds a).1, (clampi_bounds a).2,
      (clampi_bounds f).1, (clampi_bounds f).2⟩
  · intro p hp
    rcases List.mem_singleton.mp hp with rfl
    exact ⟨(clampi_bounds a).1, (clampi_bounds a).2,
      (clampi_bounds f).1, (clampi_bounds f).2⟩

/-- A "hold position and record vitals" finish: an arbitrary final state
whose fields satisfy the invariant, with no command. -/
theorem hold_finish_ok (s v : CState) (l : List ((ℕ × ℕ) × ℤ))
    (hvp : v.panic_mode = false)
    (hcurG : InG v.curA v.curF) (hprevG : InG v.prevA v.prevF)
    (hcurM : MinAtM v.anchorMatrix v.curA v.curF)
    (hprevM : MinAtM v.anchorMatrix v.prevA v.prevF)
    (hvpot : PotM v.anchorMatrix v.anchorLevel)
    (htr : TraceOK s v l) :
    StepOK s ⟨v, [], l⟩ :=
  ⟨Or.inr ⟨hvp, hcurG, hprevG, hcurM, hprevM, hvpot⟩, htr, by simp⟩

/-- `stepPending` preserves the invariant and produces a correct trace. -/
theorem stepPending_master (s : CState) (b c : ℤ) (improved same : Bool)
    (h : NInv s) : StepOK s (stepPending s b c improved same) := by
  obtain ⟨hp, hcG, hpG, hcM, hpM, hpot⟩ := h
  obtain ⟨hc0a, hc4a, hc0f, hc4f⟩ := id hcG
  obtain ⟨hp0a, hp4a, hp0f, hp4f⟩ := id hpG
  cases improved with
  | false =>
    simp only [stepPending]
    rw [if_neg (by simp)]
    by_cases hrd : same = true ∧ s.lastMoveDir = 1 ∧ s.prevA > 0
    · rw [if_pos hrd]
      have hA1 : 0 < s.prevA := hrd.2.2
      have hclA : clampi (s.prevA - 1) 0 4 = s.prevA - 1 :=
        clampi_of_range _ (by omega) (by omega)
      have hclF : clampi s.prevF 0 4 = s.prevF :=
        clampi_of_range _ hp0f hp4f
      apply command_finish_ok
      · exact hp
      · exact hcG
      · exact hcM
      · exact hpot
      · rw [hclA, hclF]
        exact MinAtM_of_lt _ s.prevA s.prevF _ _ (by omega) hpM
      · exact TraceOK_nil s _ rfl rfl
    · rw [if_neg hrd]
      by_cases hq : s.prevA ≠ s.curA ∨ s.prevF ≠ s.curF
      · rw [if_pos hq]
        rcases controller_command_cell_spec s s.prevA s.prevF with
          ⟨hc2, cl, hc1⟩
        rw [hc1, hc2]
        refine ⟨Or.inr ⟨hp, hpG, hpG, hpM, hpM, hpot⟩,
          TraceOK_nil s _ rfl rfl, ?_⟩
        intro p hp'
        rcases List.mem_singleton.mp hp' with rfl
        exact ⟨(clampi_bounds s.prevA).1, (clampi_bounds s.prevA).2,
          (clampi_bounds s.prevF).1, (clampi_bounds s.prevF).2⟩
      · rw [if_neg hq]
        exact ⟨Or.inr ⟨hp, hpG, hpG, hpM, hpM, hpot⟩,
          TraceOK_nil s _ rfl rfl, by simp⟩
  | true =>
    simp only [stepPending]
    rw [if_pos trivial]
    rcases register_anchor_spec s s.curA s.curF hcG hcM hpot with
      ⟨hreg, hmin', hpot', htr, M1, L1, hfld⟩
    rw [hfld] at hmin' hpot' htr ⊢
    dsimp only at hmin' hpot' htr ⊢
    by_cases hmem : s.anchorA_mem ≠ s.curA ∨ s.anchorF_mem ≠ s.curF
    · rw [if_pos hmem]
      by_cases hF : s.curF > 0
      · rw [if_pos hF]
        apply command_finish_ok
        · exact hp
        · exact hcG
        · exact hmin'
        · exact hpot'
        · rw [clampi_of_range s.curA hc0a hc4a,
            clampi_of_range (s.curF - 1) (by omega) (by omega)]
          exact MinAtM_of_lt _ s.curA s.curF _ _ (by omega) hmin'
        · exact TraceOK_congr s _ _ _ rfl rfl htr
      · rw [if_neg hF]
        by_cases hA : s.curA > 0
        · rw [if_pos hA]
          apply command_finish_ok
          · exact hp
          · exact hcG
          · exact hmin'
          · exact hpot'
          · rw [clampi_of_range (s.curA - 1) (by omega) (by omega),
              clampi_of_range s.curF hc0f hc4f]
            exact MinAtM_of_lt _ s.curA s.curF _ _ (by omega) hmin'
          · exact TraceOK_congr s _ _ _ rfl rfl htr
        · rw [if_neg hA]
          apply hold_finish_ok
          · exact hp
          · exact hcG
          · exact hcG
          · exact hmin'
          · exact hmin'
          · exact hpot'
          · exact TraceOK_congr s _ _ _ rfl rfl htr
    · rw [if_neg hmem]
      by_cases hF : s.curF > 0
      · rw [if_pos hF]
        apply command_finish_ok
        · exact hp
        · exact hcG
        · exact hmin'
        · exact hpot'
        · rw [clampi_of_range s.curA hc0a hc4a,
            clampi_of_range (s.curF - 1) (by omega) (by omega)]
          exact MinAtM_of_lt _ s.curA s.curF _ _ (by omega) hmin'
        · exact TraceOK_congr s _ _ _ rfl rfl htr
      · rw [if_neg hF]
        by_cases hA : s.curA > 0
        · rw [if_pos hA]
          apply command_finish_ok
          · exact hp
          · exact hcG
          · exact hmin'
          · exact hpot'
          · rw [clampi_of_range (s.curA - 1) (by omega) (by omega),
              clampi_of_range s.curF hc0f hc4f]
            exact MinAtM_of_lt _ s.curA s.curF _ _ (by omega) hmin'
          · exact TraceOK_congr s _ _ _ rfl rfl htr
        · rw [if_neg hA]
          apply hold_finish_ok
          · exact hp
          · exact hcG
          · exact hcG
          · exact hmin'
          · exact hmin'
          · exact hpot'
          · exact TraceOK_congr s _ _ _ rfl rfl htr

/-- Commands issued by `controller_command_cell` are always in range. -/
theorem controller_command_cell_cmd_inG (u : CState) (a f : ℤ) :
    InG (controller_command_cell u a f).2.1
      (controller_command_cell u a f).2.2 := by
  rcases controller_command_cell_spec u a f with ⟨hc2, cl, hc1⟩
  rw [hc2]
  exact ⟨(clampi_bounds a).1, (clampi_bounds a).2,
    (clampi_bounds f).1, (clampi_bounds f).2⟩

/-- `controller_command_cell` leaves the anchor map and level alone. -/
theorem controller_command_cell_matrix (u : CState) (a f : ℤ) :
    (controller_command_cell u a f).1.anchorMatrix = u.anchorMatrix ∧
    (controller_command_cell u a f).1.anchorLevel = u.anchorLevel := by
  rcases controller_command_cell_spec u a f with ⟨hc2, cl, hc1⟩
  rw [hc1]
  exact ⟨rfl, rfl⟩

/-- The invariant survives `controller_command_cell` whenever the clamped
target is minimal. -/
theorem NInv_command_cell (u : CState) (a f : ℤ)
    (hup : u.panic_mode = false)
    (hprevG : InG u.prevA u.prevF)
    (hprevM : MinAtM u.anchorMatrix u.prevA u.prevF)
    (hupot : PotM u.anchorMatrix u.anchorLevel)
    (hcurM : MinAtM u.anchorMatrix (clampi a 0 4) (clampi f 0 4)) :
    NInv (controller_command_cell u a f).1 := by
  rcases controller_command_cell_spec u a f with ⟨hc2, cl, hc1⟩
  rw [hc1]
  exact ⟨hup, ⟨(clampi_bounds a).1, (clampi_bounds a).2,
    (clampi_bounds f).1, (clampi_bounds f).2⟩, hprevG, hcurM, hprevM, hupot⟩

/-- `stepIdleCore` preserves the invariant and produces a correct trace,
assuming the backtrack target was just synced to the current cell. -/
theorem stepIdleCore_master (sB : CState) (b c : ℤ) (improved same : Bool)
    (hp : sB.panic_mode = false)
    (hcG : InG sB.curA sB.curF)
    (hpA : sB.prevA = sB.curA) (hpF : sB.prevF = sB.curF)
    (hcM : MinAtM sB.anchorMatrix sB.curA sB.curF)
    (hpot : PotM sB.anchorMatrix sB.anchorLevel) :
    StepOK sB (stepIdleCore sB b c improved same) := by
  obtain ⟨h0a, h4a, h0f, h4f⟩ := id hcG
  have hpG : InG sB.prevA sB.prevF := by rw [hpA, hpF]; exact hcG
  have hpM : MinAtM sB.anchorMatrix sB.prevA sB.prevF := by
    rw [hpA, hpF]; exact hcM
  simp only [stepIdleCore]
  by_cases h1 : sB.triedLeftFromAnchor = false ∧ sB.curF = 0
  · rw [if_pos h1]
    apply consCmd_ok
    · exact controller_command_cell_cmd_inG _ _ _
    · apply stepPending_master
      apply NInv_command_cell
      · exact hp
      · exact hpG
      · exact hpM
      · exact hpot
      · by_cases hA0 : sB.curA = 0
        · have e1 : clampi (sB.curA - 1) 0 4 = sB.curA := by
            rw [hA0]; decide
          rw [e1, clampi_of_range sB.curF h0f h4f]
          exact hcM
        · rw [clampi_of_range (sB.curA - 1) (by omega) (by omega),
            clampi_of_range sB.curF h0f h4f]
          exact MinAtM_of_lt _ sB.curA sB.curF _ _ (by omega) hcM
    · exact (controller_command_cell_matrix _ _ _).1
    · exact (controller_command_cell_matrix _ _ _).2
  · rw [if_neg h1]
    by_cases h2 : sB.triedUpFromAnchor = false ∧ sB.curA = 0
    · rw [if_pos h2]
      apply consCmd_ok
      · exact controller_command_cell_cmd_inG _ _ _
      · apply stepPending_master
        apply NInv_command_cell
        · exact hp
        · exact hpG
        · exact hpM
        · exact hpot
        · by_cases hF0 : sB.curF = 0
          · have e1 : clampi (sB.curF - 1) 0 4 = sB.curF := by
              rw [hF0]; decide
            rw [e1, clampi_of_range sB.curA h0a h4a]
            exact hcM
          · rw [clampi_of_range sB.curA h0a h4a,
              clampi_of_range (sB.curF - 1) (by omega) (by omega)]
            exact MinAtM_of_lt _ sB.curA sB.curF _ _ (by omega) hcM
      · exact (controller_command_cell_matrix _ _ _).1
      · exact (controller_command_cell_matrix _ _ _).2
    · rw [if_neg h2]
      by_cases h3 : sB.triedLeftFromAnchor = false ∧ sB.curF > 0
      · rw [if_pos h3]
        have hF := h3.2
        apply command_finish_ok
        · exact hp
        · exact hpG
        · exact hpM
        · exact hpot
        · rw [clampi_of_range sB.curA h0a h4a,
            clampi_of_range (sB.curF - 1) (by omega) (by omega)]
          exact MinAtM_of_lt _ sB.curA sB.curF _ _ (by omega) hcM
        · exact TraceOK_nil sB _ rfl rfl
      · rw [if_neg h3]
        by_cases h4 : sB.triedUpFromAnchor = false ∧ sB.curA > 0
        · rw [if_pos h4]
          have hA := h4.2
          apply command_finish_ok
          · exact hp
          · exact hpG
          · exact hpM
          · exact hpot
          · rw [clampi_of_range (sB.curA - 1) (by omega) (by omega),
              clampi_of_range sB.curF h0f h4f]
            exact MinAtM_of_lt _ sB.curA sB.curF _ _ (by omega) hcM
          · exact TraceOK_nil sB _ rfl rfl
        · rw [if_neg h4]
          by_cases h5 : sB.curA + 1 = 1 ∧ sB.curF + 1 = 1
          · rw [if_pos h5]
            exact hold_finish_ok sB _ [] hp hcG hpG hcM hpM hpot
              (TraceOK_nil sB _ rfl rfl)
          · rw [if_neg h5]
            exact hold_finish_ok sB _ [] hp hcG hpG hcM hpM hpot
              (TraceOK_nil sB _ rfl rfl)

/-- `stepIdle` preserves the invariant and produces a correct trace. -/
theorem stepIdle_master (s : CState) (b c : ℤ) (improved same : Bool)
    (h : NInv s) : StepOK s (stepIdle s b c improved same) := by
  obtain ⟨hp, hcG, hpG, hcM, hpM, hpot⟩ := h
  simp only [stepIdle]
  by_cases hmem : s.anchorA_mem ≠ s.curA ∨ s.anchorF_mem ≠ s.curF
  · rw [if_pos hmem]
    rcases register_anchor_spec
      { s with
        anchorA_mem := s.curA
        anchorF_mem := s.curF
        triedLeftFromAnchor := false
        triedUpFromAnchor := false } s.curA s.curF hcG hcM hpot with
      ⟨hreg, hmin', hpot', htr, M1, L1, hfld⟩
    rw [hfld] at hmin' hpot' htr ⊢
    dsimp only at hmin' hpot' htr ⊢
    apply wrap_ok
    · apply stepIdleCore_master
      · exact hp
      · exact hcG
      · rfl
      · rfl
      · exact hmin'
      · exact hpot'
    · exact TraceOK_congr_pre s _ _ _ rfl rfl
        (TraceOK_congr _ _ _ _ rfl rfl htr)
  · rw [if_neg hmem]
    apply wrap_ok
    · apply stepIdleCore_master
      · exact hp
      · exact hcG
      · rfl
      · rfl
      · exact hcM
      · exact hpot
    · exact TraceOK_nil s _ rfl rfl

/-- `controller_step` preserves the invariant, emits only in-range commands
and produces a correct registration trace. -/
theorem step_master (s : CState) (b c : ℤ) (h : Inv s) :
    StepOK s (controller_step s b c) := by
  rcases h with ⟨hpm, hcG, hpG⟩ | hN
  · -- already in panic mode
    rw [step_panic_eq s b c hpm]
    refine ⟨Or.inl ⟨hpm, show InG 0 0 by decide, hpG⟩,
      TraceOK_nil s _ rfl rfl, ?_⟩
    intro p hp'
    rcases List.mem_singleton.mp hp' with rfl
    decide
  · have hp := hN.1
    by_cases hj : 0 < s.ctrl_lastBPM ∧ 30 ≤ b - s.ctrl_lastBPM
    · -- entering panic mode on this step
      rw [step_panic_entry_eq s b c hp hj]
      refine ⟨Or.inl ⟨rfl, show InG 0 0 by decide, hN.2.2.1⟩,
        TraceOK_nil s _ rfl rfl, ?_⟩
      intro p hp'
      rcases List.mem_singleton.mp hp' with rfl
      decide
    · by_cases hd : s.lastMoveDir = 0
      · rw [controller_step_idle_eq s b c hp hj hd]
        obtain ⟨hi, ht, hc⟩ := stepIdle_master
          { s with
            hit_wall := false
            is_crying := decide (b < 150 ∧ c < 52 ∧ c > 15) } b c
          (improvedOf s b c) (sameOf s b c)
          ⟨hN.1, hN.2.1, hN.2.2.1, hN.2.2.2.1, hN.2.2.2.2.1, hN.2.2.2.2.2⟩
        exact ⟨hi, TraceOK_congr_pre s _ _ _ rfl rfl ht, hc⟩
      · rw [controller_step_pending_eq s b c hp hj hd]
        obtain ⟨hi, ht, hc⟩ := stepPending_master
          { s with
            hit_wall := false
            is_crying := decide (b < 150 ∧ c < 52 ∧ c > 15) } b c
          (improvedOf s b c) (sameOf s b c)
          ⟨hN.1, hN.2.1, hN.2.2.1, hN.2.2.2.1, hN.2.2.2.2.1, hN.2.2.2.2.2⟩
        exact ⟨hi, TraceOK_congr_pre s _ _ _ rfl rfl ht, hc⟩

/-- The invariant holds at the start of a run. -/
theorem Inv_initState : Inv initState := by
  refine Or.inr ⟨rfl, by decide, by decide, ?_, ?_, Or.inl rfl⟩ <;>
    · intro a f h
      exact absurd rfl h.2.2

/-- Every reachable controller state satisfies the invariant. -/
theorem reachable_inv (s : CState) (h : Reachable s) : Inv s := by
  induction h with
  | init => exact Inv_initState
  | step s' b c hr ih => exact (step_master s' b c ih).1

/-! ## C2 — range invariant -/

/-- C2 — Range invariant: from every reachable controller state (whose
current cell is in `[0,4]²` by the invariant) and for every input vitals
pair, every motor command emitted by `controller_step` carries indices in
`[0,4]`, and the stored current cell remains in `[0,4]²` after the step
(`controller_command_cell` clamps both arguments before commanding). -/
theorem command_range (s : CState) (b c : ℤ) (h : Reachable s) :
    (∀ p ∈ (controller_step s b c).cmds, InG p.1 p.2) ∧
    InG (controller_step s b c).state.curA
      (controller_step s b c).state.curF := by
  obtain ⟨hi, ht, hc⟩ := step_master s b c (reachable_inv s h)
  refine ⟨hc, ?_⟩
  rcases hi with ⟨_, hG, _⟩ | hN
  · exact hG
  · exact hN.2.1

/-- Witness for C2 at the initial state. -/
theorem command_range_witness :
    (∀ p ∈ (controller_step initState 200 100).cmds, InG p.1 p.2) ∧
    InG (controller_step initState 200 100).state.curA
      (controller_step initState 200 100).state.curF :=
  command_range initState 200 100 Reachable.init

/-! ## C4 — anchor registry -/

/-- Whole-run trace invariant: the invariant holds at the end and the
accumulated registration events satisfy the trace relation. -/
theorem run_trace (inputs : List (ℤ × ℤ)) (s : CState) (h : Inv s) :
    Inv (controller_run s inputs).1 ∧
    TraceOK s (controller_run s inputs).1 (controller_run s inputs).2.2 := by
  induction inputs generalizing s with
  | nil =>
    simp only [controller_run]
    exact ⟨h, TraceOK_nil s s rfl rfl⟩
  | cons bc rest ih =>
    obtain ⟨b, c⟩ := bc
    obtain ⟨hi, ht, hcm⟩ := step_master s b c h
    obtain ⟨hi2, ht2⟩ := ih (controller_step s b c).state hi
    simp only [controller_run]
    exact ⟨hi2, TraceOK_trans s _ _ _ _ ht ht2⟩

/-- C4 — Anchor registry: over every run from the initial state, the ranks
assigned by `register_anchor` (in discovery order) are exactly
`9, 8, 7, …` — the first anchor gets rank `10 - 1 = 9`, each subsequent
distinct anchor one less — hence strictly decreasing, and no grid cell is
ever registered twice. -/
theorem anchor_registry (inputs : List (ℤ × ℤ)) :
    ((controller_run initState inputs).2.2.map Prod.snd =
      (List.range (controller_run initState inputs).2.2.length).map
        (fun i : ℕ => 9 - (i : ℤ))) ∧
    List.Pairwise (fun r1 r2 : ℤ => r2 < r1)
      ((controller_run initState inputs).2.2.map Prod.snd) ∧
    ((controller_run initState inputs).2.2.map Prod.fst).Nodup := by
  obtain ⟨hi, ht⟩ := run_trace inputs initState Inv_initState
  obtain ⟨e, m, r, k, st, p⟩ := ht
  have hk : (controller_run initState inputs).2.2.map Prod.snd =
      (List.range (controller_run initState inputs).2.2.length).map
        (fun i : ℕ => 9 - (i : ℤ)) := by
    rw [k]
    apply List.map_congr_left
    intro i _
    show 9 - (initState.anchorLevel + (i : ℤ)) = 9 - (i : ℤ)
    have : initState.anchorLevel = 0 := rfl
    rw [this]
    ring
  refine ⟨hk, ?_, ?_⟩
  · rw [hk, List.pairwise_map]
    refine List.Pairwise.imp ?_ (List.pairwise_lt_range _)
    intro i j hij
    omega
  · have hne : List.Pairwise (fun e1 e2 : (ℕ × ℕ) × ℤ => e1.1 ≠ e2.1)
        (controller_run initState inputs).2.2 := by
      refine p.imp ?_
      intro e1 e2 hlt heq
      rw [heq] at hlt
      omega
    exact List.Pairwise.map Prod.fst (fun a b h => h) hne

end Decision
